import Mathlib

/-!
Verification of the human-api retrieval engine core against its
natural-language specification.

The development shallowly embeds the TypeScript/JavaScript sources:
  * `src/core/crypto/kdf.ts`            — passphrase verification (PBKDF2 wrapper)
  * `src/unnamed/part_005`              — AES-GCM DEK wrapping / sealing wrappers
  * `src/unnamed/part_008`              — sentence-aware text chunker (ts variant)
  * `src/unnamed/part_004`              — token-budget enforcement
  * `src/core/mmr/mmr.ts`               — MMR re-ranker
  * `src/core/mmr/selector.js`          — MMR selector class
  * `src/core/rag/pipeline.ts`          — retrieval pipeline (filtering, confidence)
  * `src/workers/embedding.ts`          — embedding job queue retry logic

JavaScript numbers are modelled as `Nat`/`Int`/`ℚ` (the verified claims are
order-theoretic or exact-integer facts, no float rounding is involved),
strings as Lean `String`, `Uint8Array` as `List Nat` of byte values, and
thrown errors as `Except` values.  Platform primitives (WebCrypto AES-GCM,
PBKDF2) are not part of the repository; where a claim depends on them they
are modelled from the spec and marked as such in their doc comments.
-/

/-! ## Error taxonomy (spec §7) -/

/-- Error kinds of the spec's §7 taxonomy that the embedded code paths use. -/
inductive CryptoError where
  | validationError : String → CryptoError
  | authenticationError : CryptoError
deriving DecidableEq, Repr

/-! ## `src/core/crypto/kdf.ts` — passphrase verification (claim C9)

`deriveBits` (PBKDF2) is a WebCrypto platform primitive, not repository
code; the embedding therefore takes the derivation function as an explicit
parameter.  Everything else is translated from `verifyPassphrase`
(`src/core/crypto/kdf.ts:80-118`). -/

/-- Modelled from the spec: the platform's `crypto.subtle.timingSafeEqual`
(`verifyPassphrase` compares "using a timing-safe equality check; never
short-circuits on byte mismatch").  The model accumulates the XOR of every
byte pair and compares the accumulator with zero at the end, the standard
constant-time equality on two equal-length byte arrays. -/
def timingSafeEqual (a b : List Nat) : Bool :=
  ((List.zip a b).foldl (fun acc p => acc + (p.1 ^^^ p.2)) 0) = 0

/-- `verifyPassphrase` from `src/core/crypto/kdf.ts:80-118`: re-derives the
key from the passphrase and stored salt (via the supplied `deriveBits`
derivation function standing for PBKDF2/SHA-256 at 100000 iterations),
returns `false` on a length mismatch, otherwise the timing-safe comparison
of the derived key with the expected key. -/
def verifyPassphrase (deriveBits : String → List Nat → List Nat)
    (passphrase : String) (kdfSalt : List Nat) (expectedKey : List Nat) : Bool :=
  let derivedKeyArray := deriveBits passphrase kdfSalt
  if derivedKeyArray.length ≠ expectedKey.length then false
  else timingSafeEqual derivedKeyArray expectedKey

/-! ## `src/workers/embedding.ts` — per-job retry logic (claim C4)

The claim is about one job's lifecycle through
`EmbeddingWorker.processQueue` / `handleJobFailure`: each processing
attempt either succeeds (the `fulfilled` branch emits the success
notification) or fails (`handleJobFailure` increments the retry counter,
re-enqueues with exponential backoff while retries remain, and otherwise
emits the terminal failure notification).  The embedding records, per
attempt, the action taken on the job. -/

/-- Worker configuration (`WorkerConfigSchema`, `src/workers/embedding.ts:6-10`).
`retryDelay` is the spec's `baseDelay`. -/
structure WorkerConfig where
  batchSize : Nat
  maxRetries : Nat
  retryDelay : Nat
deriving Repr, DecidableEq

/-- Outcome of `handleJobFailure` (`src/workers/embedding.ts:155-173`) for a
job whose (pre-increment) retry counter is `retries`: the incremented
counter, together with either the backoff delay it is re-enqueued with, or
`none` when the failure notification is emitted instead. -/
def handleJobFailure (cfg : WorkerConfig) (retries : Nat) : Nat × Option Nat :=
  let retries' := retries + 1
  if retries' < cfg.maxRetries then
    (retries', some (cfg.retryDelay * 2 ^ (retries' - 1)))
  else
    (retries', none)

/-- Terminal result of one job; `succeeded`/`failed` correspond to the
`jobSuccess` / `jobFailed` notifications of `handleJobSuccess` /
`handleJobFailure`, `stuck` is the (unreachable for the traces of claim C4)
case of the attempt list running out while the job is still queued. -/
inductive JobResult where
  | succeeded : JobResult
  | failed : JobResult
  | stuck : JobResult
deriving DecidableEq, Repr

/-- Runs one job through `processQueue`'s per-job handling
(`src/workers/embedding.ts:89-98`) against a list of attempt outcomes
(`true` = the `processJob` promise fulfilled, `false` = it rejected).
Returns the terminal result together with the backoff delays of every
re-enqueue, in order. -/
def runJob (cfg : WorkerConfig) : List Bool → Nat → JobResult × List Nat
  | [], _ => (JobResult.stuck, [])
  | outcome :: rest, retries =>
    if outcome then
      (JobResult.succeeded, [])
    else
      match handleJobFailure cfg retries with
      | (retries', some delay) =>
        let r := runJob cfg rest retries'
        (r.1, delay :: r.2)
      | (_, none) => (JobResult.failed, [])

/-! ## JavaScript string primitives shared by the embeddings

JS strings are modelled as `List Char`.  `String.prototype.trim` and the
`\s` regex class are modelled on the ASCII whitespace characters that occur
in this code base's inputs (space, tab, line feed, carriage return, form
feed, vertical tab). -/

/-- Whitespace recognised by the JS `trim` / `\s` model. -/
def isJsWs (c : Char) : Bool :=
  c = ' ' ∨ c = '\t' ∨ c = '\n' ∨ c = '\r' ∨ c = '\x0b' ∨ c = '\x0c'

/-- `String.prototype.trim`: strip leading and trailing whitespace. -/
def jsTrim (s : List Char) : List Char :=
  ((s.dropWhile isJsWs).reverse.dropWhile isJsWs).reverse

/-- `String.prototype.toLowerCase`, modelled structurally over the
character list (ASCII case mapping via `Char.toLower`). -/
def jsToLower (s : String) : String :=
  String.mk (s.data.map Char.toLower)

/-- `String.prototype.lastIndexOf` for a single character: the largest
index holding `c`, or `-1` when absent. -/
def lastIndexOf (s : List Char) (c : Char) : Int :=
  match s with
  | [] => -1
  | x :: xs =>
    let r := lastIndexOf xs c
    if r ≥ 0 then r + 1
    else if x = c then 0 else -1

namespace Budget

/-- `estimateTokens` from `src/unnamed/part_004:10-13`:
`Math.ceil(text.length / 4)`. -/
def estimateTokens (text : List Char) : Nat :=
  (text.length + 3) / 4

/-- A context snippet as consumed by `enforceTokenBudgetWithPriority`
(`{ text: string; score: number }`). -/
structure Snippet where
  text : List Char
  score : ℚ
deriving DecidableEq

/-- `truncateText` from `src/unnamed/part_004:19-47`.  The float thresholds
`0.7` / `0.8` are modelled as exact rationals; every fact proved below is
independent of which of the three truncation branches is taken. -/
def truncateText (text : List Char) (maxTokens : Nat) : List Char :=
  let maxChars := maxTokens * 4
  if text.length ≤ maxChars then text
  else
    let truncated := text.take maxChars
    let lastSentenceEnd :=
      max (lastIndexOf truncated '.')
        (max (lastIndexOf truncated '!') (lastIndexOf truncated '?'))
    if (lastSentenceEnd : ℚ) > (maxChars : ℚ) * (7 / 10) then
      text.take (lastSentenceEnd.toNat + 1)
    else
      let lastSpace := lastIndexOf truncated ' '
      if (lastSpace : ℚ) > (maxChars : ℚ) * (4 / 5) then
        text.take lastSpace.toNat
      else truncated

/-- The stable descending-by-score order produced by
`[...snippets].sort((a, b) => b.score - a.score)`
(`src/unnamed/part_004:107`); JS `sort` is stable, which is exactly
insertion sort with the reflexive relation `a.score ≥ b.score`. -/
def sortedSnippets (snippets : List Snippet) : List Snippet :=
  List.insertionSort (fun a b => a.score ≥ b.score) snippets

/-- The greedy packing loop of `enforceTokenBudgetWithPriority`
(`src/unnamed/part_004:112-128`), returning the selected (possibly
truncated) snippet texts in order.  A snippet that fits is taken whole;
otherwise, if more than 20 tokens of budget remain, a truncation is
attempted and the loop stops; otherwise the loop stops. -/
def packSnippets : List Snippet → Nat → List (List Char)
  | [], _ => []
  | snippet :: rest, remainingTokens =>
    let snippetTokens := estimateTokens snippet.text
    if snippetTokens ≤ remainingTokens then
      snippet.text :: packSnippets rest (remainingTokens - snippetTokens)
    else if remainingTokens > 20 then
      let truncated := truncateText snippet.text remainingTokens
      if (jsTrim truncated).length > 0 then [truncated] else []
    else []

/-- `enforceTokenBudgetWithPriority` from `src/unnamed/part_004:98-131`:
sort by score descending, pack greedily, join with `"\n\n"`. -/
def enforceTokenBudgetWithPriority (snippets : List Snippet) (maxTokens : Nat) :
    List Char :=
  if snippets.isEmpty then []
  else List.intercalate ['\n', '\n'] (packSnippets (sortedSnippets snippets) maxTokens)

end Budget

namespace MMR

/-- `MMRItem` from `src/core/mmr/mmr.ts:6-10`. -/
structure MMRItem where
  id : String
  vec : List ℚ
  baseScore : ℚ
deriving DecidableEq

/-- Rational dot product; equals `cosineSimilarity` on unit vectors. -/
def simDot (a b : List ℚ) : ℚ :=
  ((a.zip b).map (fun p => p.1 * p.2)).sum

/-- `new Set(items.map(item => item.id))`: JS set-insertion keeps first
occurrences in iteration order. -/
def jsSet (l : List String) : List String :=
  l.foldl (fun acc x => if x ∈ acc then acc else acc ++ [x]) []

/-- `calculateDiversity` from `src/core/mmr/mmr.ts:49-66`: the maximum
similarity between the candidate and the already-selected items, starting
from 0, and 0 when nothing is selected or the candidate is unknown. -/
def calculateDiversity (sim : List ℚ → List ℚ → ℚ) (candidateId : String)
    (selectedItems : List MMRItem) (allItems : List MMRItem) : ℚ :=
  if selectedItems.isEmpty then 0
  else
    match allItems.find? (fun item => item.id == candidateId) with
    | none => 0
    | some candidate =>
      selectedItems.foldl (fun m s => max m (sim candidate.vec s.vec)) 0

/-- One candidate inspection of the best-candidate scan
(`src/core/mmr/mmr.ts:101-115`): an id that resolves to no item is skipped
(`continue`), otherwise its MMR score `λ·relevance − (1−λ)·diversity` is
computed and it replaces the incumbent only on a strictly greater score. -/
def considerCandidate (sim : List ℚ → List ℚ → ℚ) (items : List MMRItem)
    (queryVec : List ℚ) (lambda : ℚ) (selected : List MMRItem)
    (best : Option (String × ℚ)) (id : String) : Option (String × ℚ) :=
  match items.find? (fun i => i.id == id) with
  | none => best
  | some item =>
    let relevance := sim queryVec item.vec
    let diversity := calculateDiversity sim id selected items
    let mmrScore := lambda * relevance - (1 - lambda) * diversity
    match best with
    | none => some (id, mmrScore)
    | some (bestId, bestScore) =>
      if mmrScore > bestScore then some (id, mmrScore) else some (bestId, bestScore)

/-- The full best-candidate scan over `remaining` (the `for (const id of
remaining)` loop of `src/core/mmr/mmr.ts:98-115`); `none` plays the role
of the `bestId = ''`/`bestScore = -Infinity` sentinel, which any real score
replaces. -/
def pickBest (sim : List ℚ → List ℚ → ℚ) (items : List MMRItem)
    (queryVec : List ℚ) (lambda : ℚ) (selected : List MMRItem)
    (remaining : List String) : Option (String × ℚ) :=
  remaining.foldl (considerCandidate sim items queryVec lambda selected) none

/-- The MMR selection `while` loop (`src/core/mmr/mmr.ts:97-127`).  `fuel`
is always called with `remaining.length`; each iteration removes exactly
one id from `remaining`, so the fuel never runs out before the loop's own
exit conditions fire and the recursion is exactly the source's loop.  The
source guards selection with `if (bestId && bestScore > -Infinity)`
(mmr.ts:117): the empty string is falsy in JS, so a winner whose id is
`""` is indistinguishable from the `bestId = ''` sentinel and the loop
breaks — hence the `bestId = ""` test below; `none` plays the sentinel's
no-candidate-examined role (any real score exceeds `-Infinity`).  The
`.find?`-failure fallthrough after a successful pick is unreachable
(`pickBest` only returns ids of items). -/
def mmrLoop (sim : List ℚ → List ℚ → ℚ) (items : List MMRItem)
    (queryVec : List ℚ) (lambda : ℚ) (k : Nat) :
    Nat → List MMRItem → List String → List MMRItem
  | 0, selected, _ => selected
  | fuel + 1, selected, remaining =>
    if selected.length < k ∧ ¬remaining.isEmpty then
      match pickBest sim items queryVec lambda selected remaining with
      | some (bestId, _) =>
        if bestId = "" then selected
        else
          match items.find? (fun i => i.id == bestId) with
          | some item =>
            mmrLoop sim items queryVec lambda k
              fuel (selected ++ [item]) (remaining.erase bestId)
          | none => selected
      | none => selected
    else selected

/-- `mmr` from `src/core/mmr/mmr.ts:77-130`.  For `k ≥ items.length` the
source returns all items sorted by `baseScore` descending (a stable JS
sort, i.e. insertion sort with the reflexive relation `≥`); otherwise it
runs the greedy MMR loop and returns the selected ids. -/
def mmr (sim : List ℚ → List ℚ → ℚ) (items : List MMRItem)
    (queryVec : List ℚ) (lambda : ℚ) (k : Nat) : List String :=
  if items.isEmpty then []
  else if k = 0 then []
  else if k ≥ items.length then
    (List.insertionSort (fun a b => a.baseScore ≥ b.baseScore) items).map (·.id)
  else
    let remaining := jsSet (items.map (·.id))
    (mmrLoop sim items queryVec lambda k remaining.length [] remaining).map (·.id)

/-- The relevance of an id: the similarity of the query vector with the
vector of the (first) item carrying that id, as the source computes it. -/
def relevanceOf (sim : List ℚ → List ℚ → ℚ) (items : List MMRItem)
    (queryVec : List ℚ) (id : String) : ℚ :=
  match items.find? (fun i => i.id == id) with
  | none => 0
  | some item => sim queryVec item.vec

end MMR

namespace RAG

/-- A retrieval candidate as passed to `RAGPipeline.query`
(`src/core/rag/pipeline.ts:63-70`). -/
structure Candidate where
  id : String
  text : List Char
  embedding : List ℚ
  tags : List String
  occurredAt : Option ℚ
  importance : Option ℚ
deriving DecidableEq

/-- `RAGQuery['filters']` (`src/core/rag/pipeline.ts:31-35`). -/
structure Filters where
  tags : Option (List String)
  timeRange : Option (ℚ × ℚ)
  importance : Option ℚ
deriving DecidableEq

/-- `RAGConfig` (`RAGConfigSchema`, `src/core/rag/pipeline.ts:6-11`). -/
structure RAGConfig where
  topK : Nat
  mmrLambda : ℚ
  minScore : ℚ
  maxCitations : Nat

/-- `MMRItem` of `src/core/mmr/selector.js` as built by the pipeline
(`{id, score, text, metadata}`; the metadata bag is unused on the verified
paths). -/
structure SelItem where
  id : String
  score : ℚ
  text : List Char
deriving DecidableEq

/-- The candidate predicate of `RAGPipeline.filterCandidates`
(`src/core/rag/pipeline.ts:117-141`): the body of the `candidates.filter`
callback.  Note the tag filter lowercases only the *requested* tag and
compares it verbatim (`includes`) against the stored candidate tags. -/
def candidatePasses (filters : Filters) (candidate : Candidate) : Bool :=
  (match filters.tags with
   | some tags =>
     if tags.length > 0 then
       tags.any (fun tag => candidate.tags.contains (jsToLower tag))
     else true
   | none => true) &&
  (match filters.timeRange, candidate.occurredAt with
   | some (tstart, tstop), some occurredAt =>
     ¬(occurredAt < tstart ∨ occurredAt > tstop)
   | some _, none => true
   | none, _ => true) &&
  (match filters.importance with
   | some floor => ¬(candidate.importance.getD 0 < floor)
   | none => true)

/-- `RAGPipeline.filterCandidates` (`src/core/rag/pipeline.ts:106-142`):
returns all candidates unchanged when no filter object is supplied,
otherwise filters by `candidatePasses`. -/
def filterCandidates (candidates : List Candidate) (filters : Option Filters) :
    List Candidate :=
  match filters with
  | none => candidates
  | some f => candidates.filter (candidatePasses f)

/-- `Map.prototype.set` on an association list. -/
def jsMapSet (m : List (String × ℚ)) (k : String) (v : ℚ) : List (String × ℚ) :=
  if (m.lookup k).isSome then
    m.map (fun p => if p.1 = k then (k, v) else p)
  else m ++ [(k, v)]

/-- The relevance-score map precomputation of `MMRSelector.select`
(`src/core/mmr/selector.js:24-31`): candidates without an embedding are
skipped. -/
def selectorScores (sim : List ℚ → List ℚ → ℚ) (queryEmbedding : List ℚ)
    (candidates : List SelItem) (embeddings : List (String × List ℚ)) :
    List (String × ℚ) :=
  candidates.foldl
    (fun scores candidate =>
      match embeddings.lookup candidate.id with
      | none => scores
      | some embedding => jsMapSet scores candidate.id (sim queryEmbedding embedding))
    []

/-- `MMRSelector.calculateDiversity` (`src/core/mmr/selector.js:61-76`). -/
def selectorDiversity (sim : List ℚ → List ℚ → ℚ) (candidateId : String)
    (selected : List SelItem) (embeddings : List (String × List ℚ)) : ℚ :=
  if selected.isEmpty then 0
  else
    match embeddings.lookup candidateId with
    | none => 0
    | some candidateEmbedding =>
      selected.foldl
        (fun m item =>
          match embeddings.lookup item.id with
          | none => m
          | some itemEmbedding => max m (sim candidateEmbedding itemEmbedding))
        0

/-- One candidate inspection of `MMRSelector.select`'s best-candidate scan
(`src/core/mmr/selector.js:36-44`): relevance is `scores.get(id) || 0`. -/
def selectorConsider (sim : List ℚ → List ℚ → ℚ) (lambda : ℚ)
    (selected : List SelItem) (scores : List (String × ℚ))
    (embeddings : List (String × List ℚ)) (best : Option (String × ℚ))
    (id : String) : Option (String × ℚ) :=
  let relevance := (scores.lookup id).getD 0
  let diversity := selectorDiversity sim id selected embeddings
  let mmrScore := lambda * relevance - (1 - lambda) * diversity
  match best with
  | none => some (id, mmrScore)
  | some (bestId, bestScore) =>
    if mmrScore > bestScore then some (id, mmrScore) else some (bestId, bestScore)

/-- The selection `while` loop of `MMRSelector.select`
(`src/core/mmr/selector.js:33-55`), fueled exactly like `MMR.mmrLoop` and
with the same `if (bestId && bestScore > -Infinity)` falsy-empty-id guard
(selector.js:45): a winning empty-string id breaks the loop. -/
def selectLoop (sim : List ℚ → List ℚ → ℚ) (lambda : ℚ) (maxResults : Nat)
    (candidates : List SelItem) (scores : List (String × ℚ))
    (embeddings : List (String × List ℚ)) :
    Nat → List SelItem → List String → List SelItem
  | 0, selected, _ => selected
  | fuel + 1, selected, remaining =>
    if selected.length < maxResults ∧ ¬remaining.isEmpty then
      match remaining.foldl
          (selectorConsider sim lambda selected scores embeddings) none with
      | some (bestId, _) =>
        if bestId = "" then selected
        else
          match candidates.find? (fun c => c.id == bestId) with
          | some candidate =>
            selectLoop sim lambda maxResults candidates scores embeddings
              fuel (selected ++ [candidate]) (remaining.erase bestId)
          | none => selected
      | none => selected
    else selected

/-- `MMRSelector.select` (`src/core/mmr/selector.js:17-56`): returns the
selected items and the relevance-score map. -/
def selectorSelect (sim : List ℚ → List ℚ → ℚ) (lambda : ℚ) (maxResults : Nat)
    (queryEmbedding : List ℚ) (candidates : List SelItem)
    (embeddings : List (String × List ℚ)) :
    List SelItem × List (String × ℚ) :=
  if candidates.isEmpty then ([], [])
  else
    let scores := selectorScores sim queryEmbedding candidates embeddings
    let remaining := MMR.jsSet (candidates.map (·.id))
    (selectLoop sim lambda maxResults candidates scores embeddings
      remaining.length [] remaining, scores)

/-- `RAGPipeline.calculateConfidence` (`src/core/rag/pipeline.ts:191-198`):
`(mean of the sources' score fields) · min(count / maxCitations, 1)`, and 0
for no sources. -/
def calculateConfidence (cfg : RAGConfig) (sources : List SelItem) : ℚ :=
  if sources.isEmpty then 0
  else
    let avgScore := (sources.map (·.score)).sum / sources.length
    let sourceCount := min ((sources.length : ℚ) / cfg.maxCitations) 1
    avgScore * sourceCount

/-- The selection-and-confidence path of `RAGPipeline.query`
(`src/core/rag/pipeline.ts:63-104` and `generateAnswer`'s confidence,
line 169): filter, convert to MMR items **with `score: 0`** ("Will be
calculated by MMR"), select, compute confidence over the selected items.
The query embedding is an input (the generator is an external port). -/
def pipelineQuery (cfg : RAGConfig) (sim : List ℚ → List ℚ → ℚ)
    (queryEmbedding : List ℚ) (filters : Option Filters)
    (candidates : List Candidate) : List SelItem × ℚ :=
  let filteredCandidates := filterCandidates candidates filters
  let mmrCandidates := filteredCandidates.map (fun c => SelItem.mk c.id 0 c.text)
  let embeddings := filteredCandidates.map (fun c => (c.id, c.embedding))
  let selected := (selectorSelect sim cfg.mmrLambda cfg.topK queryEmbedding
    mmrCandidates embeddings).1
  (selected, calculateConfidence cfg selected)

/-- Modelled from the spec: the claim's confidence formula, "(mean
relevance score of the selected items) × min(selectedCount / maxCitations,
1)", over the selected items' MMR relevance scores. -/
def claimConfidence (relevances : List ℚ) (maxCitations : Nat) : ℚ :=
  if relevances.isEmpty then 0
  else (relevances.sum / relevances.length) *
    min ((relevances.length : ℚ) / maxCitations) 1

end RAG

namespace Chunker

/-- A chunk (`{start, end, text}`); `end` is a Lean keyword, so the field
is named `stop`.  Offsets are integers: the source computes
`sentence.start - overlap.length`, which can be negative. -/
structure Chunk where
  start : Int
  stop : Int
  text : List Char
deriving DecidableEq, Repr

/-- A sentence of `splitIntoSentences` (`{text, start, end}`). -/
structure Sentence where
  text : List Char
  start : Nat
  stop : Nat
deriving DecidableEq, Repr

/-- `estimateTokens` from `src/unnamed/part_008:22-25`:
`Math.ceil(text.length / 3)`. -/
def estimateTokens (text : List Char) : Nat :=
  (text.length + 2) / 3

/-- The `[.!?]` character class of the sentence regex. -/
def isPunct (c : Char) : Bool :=
  c = '.' ∨ c = '!' ∨ c = '?'

/-- First index `≥ pos` whose character satisfies `p`. -/
def findIdxFrom (p : Char → Bool) (s : List Char) (pos : Nat) : Option Nat :=
  match (s.drop pos).findIdx? p with
  | none => none
  | some i => some (pos + i)

/-- End of the maximal run of characters satisfying `p` starting at `i`. -/
def runEnd (p : Char → Bool) (s : List Char) (i : Nat) : Nat :=
  i + ((s.drop i).takeWhile p).length

/-- The `while ((match = sentenceRegex.exec(text)) !== null)` loop of
`splitIntoSentences` (`src/unnamed/part_008:37-47`) for the global regex
`/[.!?]+\s*/g`: each match is a maximal punctuation run followed by a
maximal whitespace run.  Returns the sentences pushed by the loop and the
final `lastIndex`. -/
def sentenceLoop (s : List Char) : Nat → Nat → List Sentence × Nat
  | 0, pos => ([], pos)
  | fuel + 1, pos =>
    match findIdxFrom isPunct s pos with
    | none => ([], pos)
    | some i =>
      let punctEnd := runEnd isPunct s i
      let matchEnd := runEnd isJsWs s punctEnd
      let sentenceText := jsTrim ((s.take matchEnd).drop pos)
      let r := sentenceLoop s fuel matchEnd
      if sentenceText.length > 0 then (⟨sentenceText, pos, matchEnd⟩ :: r.1, r.2)
      else r

/-- `splitIntoSentences` from `src/unnamed/part_008:31-71`: the regex loop,
then the trailing-remainder sentence, then the whole-text fallback when
nothing was found. -/
def splitIntoSentences (text : List Char) : List Sentence :=
  let r := sentenceLoop text (text.length + 1) 0
  let lastIndex := r.2
  let sentences :=
    if lastIndex < text.length then
      let remainingText := jsTrim (text.drop lastIndex)
      if remainingText.length > 0 then
        r.1 ++ [⟨remainingText, lastIndex, text.length⟩]
      else r.1
    else r.1
  if sentences.isEmpty ∧ (jsTrim text).length > 0 then
    [⟨jsTrim text, 0, text.length⟩]
  else sentences

/-- `String.prototype.split(/\s+/)`: fields between maximal whitespace
runs, including the empty leading/trailing fields JS produces when the
string starts or ends with whitespace. -/
def splitWsAux : Nat → List Char → List Char → List (List Char)
  | _, [], cur => [cur.reverse]
  | 0, _, cur => [cur.reverse]
  | fuel + 1, c :: rest, cur =>
    if isJsWs c then cur.reverse :: splitWsAux fuel (rest.dropWhile isJsWs) []
    else splitWsAux fuel rest (c :: cur)

/-- `chunkText.split(/\s+/)` as used by `createOverlap`. -/
def jsSplitWs (s : List Char) : List (List Char) :=
  splitWsAux s.length s []

/-- `Array.prototype.slice(-k)`: the last `k` elements — except that
`slice(-0)` is `slice(0)`, the whole array. -/
def sliceNeg (words : List (List Char)) (k : Nat) : List (List Char) :=
  if k = 0 then words else words.drop (words.length - k)

/-- `createOverlap` from `src/unnamed/part_008:76-80`.
`Math.ceil(overlapTokens * 0.8)` is modelled as `⌈4·overlapTokens/5⌉`
(exact rational 0.8; every fact proved about `chunkText` below holds for
any overlap text, so the float rounding of `0.8` is immaterial). -/
def createOverlap (chunkText : List Char) (overlapTokens : Nat) : List Char :=
  let words := jsSplitWs chunkText
  let overlapWords := min words.length ((4 * overlapTokens + 4) / 5)
  List.intercalate [' '] (sliceNeg words overlapWords)

/-- Decides `currentTokens >= Math.min(20, targetTokens / 8)` (the
`minChunkTokens` comparison of `src/unnamed/part_008:97,116,137`) in
integer arithmetic; `meetsMinChunk_iff` certifies it against the rational
form. -/
def meetsMinChunk (targetTokens currentTokens : Nat) : Bool :=
  20 ≤ currentTokens ∨ targetTokens ≤ 8 * currentTokens

/-- The mutable loop state of `chunkText` (`src/unnamed/part_008:105-108`). -/
structure ChunkState where
  chunks : List Chunk
  currentChunk : List Char
  currentStart : Int
  currentTokens : Nat
deriving DecidableEq, Repr

/-- One iteration of `chunkText`'s sentence loop
(`src/unnamed/part_008:110-134`). -/
def chunkStep (targetTokens overlapTokens : Nat) (st : ChunkState)
    (sentence : Sentence) : ChunkState :=
  if estimateTokens (st.currentChunk ++
        (if st.currentChunk.isEmpty then [] else [' ']) ++ sentence.text) >
      targetTokens ∧ meetsMinChunk targetTokens st.currentTokens then
    { chunks := st.chunks ++
        [⟨st.currentStart, st.currentStart + st.currentChunk.length,
          jsTrim st.currentChunk⟩],
      currentChunk := createOverlap st.currentChunk overlapTokens ++
        (if (createOverlap st.currentChunk overlapTokens).isEmpty then []
         else [' ']) ++ sentence.text,
      currentStart := (sentence.start : Int) -
        (createOverlap st.currentChunk overlapTokens).length,
      currentTokens := estimateTokens (createOverlap st.currentChunk overlapTokens ++
        (if (createOverlap st.currentChunk overlapTokens).isEmpty then []
         else [' ']) ++ sentence.text) }
  else
    { st with
      currentChunk := st.currentChunk ++
        (if st.currentChunk.isEmpty then [] else [' ']) ++ sentence.text,
      currentTokens := estimateTokens (st.currentChunk ++
        (if st.currentChunk.isEmpty then [] else [' ']) ++ sentence.text) }

/-- `chunkText` from `src/unnamed/part_008:85-146` (the TypeScript
variant). -/
def chunkText (input : List Char) (targetTokens : Nat := 600)
    (overlapTokens : Nat := 80) : List Chunk :=
  if input.isEmpty ∨ (jsTrim input).length = 0 then []
  else
    let sentences := splitIntoSentences input
    if sentences.isEmpty then []
    else
      let st := sentences.foldl (chunkStep targetTokens overlapTokens) ⟨[], [], 0, 0⟩
      if meetsMinChunk targetTokens st.currentTokens ∨
          (st.chunks.isEmpty ∧ (jsTrim st.currentChunk).length > 0) then
        st.chunks ++
          [⟨st.currentStart, st.currentStart + st.currentChunk.length,
            jsTrim st.currentChunk⟩]
      else st.chunks

/-- `String.prototype.slice` with JS clamping (negative indices count from
the end). -/
def jsSlice (s : List Char) (start stop : Int) : List Char :=
  let len : Int := s.length
  let s0 := if start < 0 then max (len + start) 0 else min start len
  let e0 := if stop < 0 then max (len + stop) 0 else min stop len
  if s0 < e0 then (s.take e0.toNat).drop s0.toNat else []

/-- `validateChunks` from `src/unnamed/part_008:161-169`: every chunk's
slice of the original text must equal the chunk's text verbatim. -/
def validateChunks (chunks : List Chunk) (originalText : List Char) : Bool :=
  chunks.all (fun chunk => jsSlice originalText chunk.start chunk.stop == chunk.text)

end Chunker

namespace Crypto

/-- Flip bit `m` of byte `i` of a byte string. -/
def flipBit (c : List Nat) (i m : Nat) : List Nat :=
  c.set i ((c.getD i 0) ^^^ 2 ^ m)

/-- Modelled from the spec: the AEAD contract of AES-GCM
(`crypto.subtle.encrypt/decrypt`), over byte strings, for a fixed key and
nonce: round trip, and rejection of any singly-bit-flipped ciphertext. -/
structure AEAD where
  encrypt : List Nat → List Nat → List Nat → List Nat
  decrypt : List Nat → List Nat → List Nat → Option (List Nat)
  decrypt_encrypt : ∀ key nonce plaintext,
    decrypt key nonce (encrypt key nonce plaintext) = some plaintext
  tamper_detect : ∀ key nonce plaintext i m,
    i < (encrypt key nonce plaintext).length → m < 8 →
    decrypt key nonce (flipBit (encrypt key nonce plaintext) i m) = none

/-- `wrapDEK` from `src/unnamed/part_005:27-43`: rejects a DEK that is not
32 bytes with the ValidationError `"DEK must be 256 bits (32 bytes)"`,
otherwise encrypts the DEK under the KEK with the fresh nonce. -/
def wrapDEK (A : AEAD) (kekKey dekPlain nonce : List Nat) :
    Except CryptoError (List Nat × List Nat) :=
  if dekPlain.length ≠ 32 then
    Except.error (CryptoError.validationError "DEK must be 256 bits (32 bytes)")
  else Except.ok (A.encrypt kekKey nonce dekPlain, nonce)

/-- `unwrapDEK` from `src/unnamed/part_005:52-61`: AEAD failure surfaces
as an AuthenticationError carrying no plaintext. -/
def unwrapDEK (A : AEAD) (kekKey wrappedDEK nonce : List Nat) :
    Except CryptoError (List Nat) :=
  match A.decrypt kekKey nonce wrappedDEK with
  | some dekPlain => Except.ok dekPlain
  | none => Except.error CryptoError.authenticationError

/-- `seal` from `src/unnamed/part_005:69-82`. -/
def sealData (A : AEAD) (dek plaintext nonce : List Nat) : List Nat × List Nat :=
  (A.encrypt dek nonce plaintext, nonce)

/-- `open` from `src/unnamed/part_005:91-100` (`open` is a Lean keyword). -/
def openData (A : AEAD) (dek cipher nonce : List Nat) :
    Except CryptoError (List Nat) :=
  match A.decrypt dek nonce cipher with
  | some plaintext => Except.ok plaintext
  | none => Except.error CryptoError.authenticationError

/-- Keystream byte of the concrete AEAD instance. -/
def ksByte (key nonce : List Nat) : Nat := key.sum + 3 * nonce.sum

/-- Tag-pad byte of the concrete AEAD instance. -/
def tagByte (key nonce : List Nat) : Nat := key.sum + nonce.sum + 1

/-- Concrete AEAD encryption: XOR-pad body followed by a per-byte tag of
the body. -/
def xorEncrypt (key nonce plaintext : List Nat) : List Nat :=
  plaintext.map (· ^^^ ksByte key nonce) ++
    (plaintext.map (· ^^^ ksByte key nonce)).map (· ^^^ tagByte key nonce)

/-- Concrete AEAD decryption: check the per-byte tag of the body, then
un-XOR the body; any check failure yields `none`. -/
def xorDecrypt (key nonce c : List Nat) : Option (List Nat) :=
  if c.length % 2 = 0 then
    if c.drop (c.length / 2) = (c.take (c.length / 2)).map (· ^^^ tagByte key nonce)
    then some ((c.take (c.length / 2)).map (· ^^^ ksByte key nonce))
    else none
  else none

end Crypto

/-! ## Lemmas, claim theorems and witnesses -/

lemma timingSafeEqual_aux (a b : List Nat) (acc : Nat) :
    ((List.zip a b).foldl (fun acc p => acc + (p.1 ^^^ p.2)) acc = 0) ↔
      (acc = 0 ∧ ∀ p ∈ List.zip a b, p.1 = p.2) := by
  induction a generalizing b acc with
  | nil => simp
  | cons x xs ih =>
    cases b with
    | nil => simp
    | cons y ys =>
      simp only [List.zip_cons_cons, List.foldl_cons, List.mem_cons]
      rw [ih]
      rw [Nat.add_eq_zero]
      constructor
      · rintro ⟨⟨ha, hx⟩, hall⟩
        refine ⟨ha, fun p hp => ?_⟩
        rcases hp with hp | hp
        · subst hp; exact Nat.xor_eq_zero.mp hx
        · exact hall p hp
      · rintro ⟨ha, hall⟩
        have hxy : x = y := hall (x, y) (Or.inl rfl)
        exact ⟨⟨ha, Nat.xor_eq_zero.mpr hxy⟩, fun p hp => hall p (Or.inr hp)⟩

lemma zip_forall_eq (a b : List Nat) (hlen : a.length = b.length) :
    (∀ p ∈ List.zip a b, p.1 = p.2) ↔ a = b := by
  induction a generalizing b with
  | nil =>
    cases b with
    | nil => simp
    | cons y ys => simp at hlen
  | cons x xs ih =>
    cases b with
    | nil => simp at hlen
    | cons y ys =>
      simp only [List.zip_cons_cons, List.mem_cons, List.cons.injEq]
      rw [← ih ys (by simpa using hlen)]
      constructor
      · intro h
        exact ⟨h (x, y) (Or.inl rfl), fun p hp => h p (Or.inr hp)⟩
      · rintro ⟨h1, h2⟩ p hp
        rcases hp with rfl | hp
        · exact h1
        · exact h2 p hp

lemma timingSafeEqual_eq_true_iff (a b : List Nat) (hlen : a.length = b.length) :
    timingSafeEqual a b = true ↔ a = b := by
  unfold timingSafeEqual
  rw [decide_eq_true_iff, timingSafeEqual_aux]
  simp only [true_and]
  exact zip_forall_eq a b hlen

lemma runJob_false_cons (cfg : WorkerConfig) (rest : List Bool) (r : Nat)
    (h : r + 1 < cfg.maxRetries) :
    runJob cfg (false :: rest) r =
      ((runJob cfg rest (r + 1)).1,
        cfg.retryDelay * 2 ^ r :: (runJob cfg rest (r + 1)).2) := by
  have hif : handleJobFailure cfg r = (r + 1, some (cfg.retryDelay * 2 ^ r)) := by
    unfold handleJobFailure
    rw [if_pos h]
    simp
  simp [runJob, hif]

lemma runJob_fail_then (cfg : WorkerConfig) (n : Nat) (rest : List Bool) (r : Nat)
    (h : r + n + 1 ≤ cfg.maxRetries) :
    runJob cfg (List.replicate n false ++ rest) r =
      ((runJob cfg rest (r + n)).1,
        (List.range n).map (fun i => cfg.retryDelay * 2 ^ (r + i)) ++
          (runJob cfg rest (r + n)).2) := by
  induction n generalizing r with
  | zero => simp
  | succ m ih =>
    rw [List.replicate_succ, List.cons_append,
      runJob_false_cons cfg _ r (by omega), ih (r + 1) (by omega)]
    have hr : r + 1 + m = r + (m + 1) := by omega
    rw [hr]
    refine Prod.ext rfl ?_
    simp only [List.range_succ_eq_map, List.map_cons, List.map_map, List.cons_append,
      Nat.add_zero]
    congr 1
    refine congrArg₂ _ ?_ rfl
    refine List.map_congr_left fun i _ => ?_
    simp only [Function.comp_apply]
    have hi : r + 1 + i = r + i.succ := by omega
    rw [hi]

/-! ## Claim theorems C9 and C4 -/

/-- Claim C9. For every passphrase, salt, and expectedKey, `verifyPassphrase`
returns `true` when the key re-derived from the passphrase and salt equals
`expectedKey`, and `false` otherwise (the comparison is the length check
followed by the constant-time equality, and a boolean is returned rather
than an error being thrown).  Stated for every derivation function standing
for the platform's PBKDF2. -/
theorem verifyPassphrase_correct (deriveBits : String → List Nat → List Nat)
    (passphrase : String) (kdfSalt expectedKey : List Nat) :
    verifyPassphrase deriveBits passphrase kdfSalt expectedKey = true ↔
      deriveBits passphrase kdfSalt = expectedKey := by
  unfold verifyPassphrase
  by_cases hlen : (deriveBits passphrase kdfSalt).length = expectedKey.length
  · rw [if_neg (by simpa using hlen)]
    exact timingSafeEqual_eq_true_iff _ _ hlen
  · rw [if_pos (by simpa using hlen)]
    constructor
    · intro h
      exact absurd h (by simp)
    · intro h
      exact absurd (congrArg List.length h) hlen

/-- Claim C4. In the embedding job queue, a job that fails `maxRetries − 1`
times and then succeeds reaches the `Succeeded` outcome (success
notification emitted), while a job that fails `maxRetries` times reaches
terminal `Failed` (failure notification emitted) and is never re-enqueued
afterwards: its trace records exactly `maxRetries − 1` re-enqueues, the
`i`-th (counting from 1) after a delay of `retryDelay · 2^(i−1)`, and none
after the terminal failure. -/
theorem embeddingWorker_retry_lifecycle (cfg : WorkerConfig)
    (h : 1 ≤ cfg.maxRetries) :
    runJob cfg (List.replicate (cfg.maxRetries - 1) false ++ [true]) 0 =
      (JobResult.succeeded,
        (List.range (cfg.maxRetries - 1)).map (fun i => cfg.retryDelay * 2 ^ i)) ∧
    runJob cfg (List.replicate cfg.maxRetries false) 0 =
      (JobResult.failed,
        (List.range (cfg.maxRetries - 1)).map (fun i => cfg.retryDelay * 2 ^ i)) := by
  have hbase : ∀ rest : List Bool,
      runJob cfg (List.replicate (cfg.maxRetries - 1) false ++ rest) 0 =
        ((runJob cfg rest (cfg.maxRetries - 1)).1,
          (List.range (cfg.maxRetries - 1)).map (fun i => cfg.retryDelay * 2 ^ i) ++
            (runJob cfg rest (cfg.maxRetries - 1)).2) := by
    intro rest
    have := runJob_fail_then cfg (cfg.maxRetries - 1) rest 0 (by omega)
    simpa using this
  constructor
  · rw [hbase [true]]
    simp [runJob]
  · have hsplit : List.replicate cfg.maxRetries false =
        List.replicate (cfg.maxRetries - 1) false ++ [false] := by
      have hm : cfg.maxRetries = (cfg.maxRetries - 1) + 1 := by omega
      rw [hm, List.replicate_succ']
      simp
    rw [hsplit, hbase [false]]
    have hlast : runJob cfg [false] (cfg.maxRetries - 1) = (JobResult.failed, []) := by
      have hif : handleJobFailure cfg (cfg.maxRetries - 1) =
          (cfg.maxRetries - 1 + 1, none) := by
        unfold handleJobFailure
        rw [if_neg (by omega)]
      simp [runJob, hif]
    rw [hlast]
    simp

/-- Witness for C4 at the worker's default configuration
(`batchSize 8, maxRetries 3, retryDelay 5000`). -/
theorem embeddingWorker_retry_lifecycle_witness :
    runJob ⟨8, 3, 5000⟩ [false, false, true] 0 =
      (JobResult.succeeded, [5000, 10000]) ∧
    runJob ⟨8, 3, 5000⟩ [false, false, false] 0 =
      (JobResult.failed, [5000, 10000]) := by
  obtain ⟨h1, h2⟩ := embeddingWorker_retry_lifecycle ⟨8, 3, 5000⟩ (by decide)
  constructor
  · simpa using h1
  · simpa using h2

lemma lastIndexOf_lt_length (s : List Char) (c : Char) :
    lastIndexOf s c < (s.length : Int) := by
  induction s with
  | nil => simp [lastIndexOf]
  | cons x xs ih =>
    simp only [lastIndexOf, List.length_cons]
    split
    · push_cast
      omega
    · split <;> push_cast <;> omega

lemma neg_one_le_lastIndexOf (s : List Char) (c : Char) :
    -1 ≤ lastIndexOf s c := by
  induction s with
  | nil => simp [lastIndexOf]
  | cons x xs ih =>
    simp only [lastIndexOf]
    split
    · omega
    · split <;> omega

namespace Budget

lemma truncateText_length_le (text : List Char) (maxTokens : Nat) :
    text.length ≤ maxTokens * 4 ∨
      (truncateText text maxTokens).length ≤ maxTokens * 4 := by
  by_cases h : text.length ≤ maxTokens * 4
  · exact Or.inl h
  · right
    unfold truncateText
    rw [if_neg h]
    dsimp only
    have hlen : (text.take (maxTokens * 4)).length = maxTokens * 4 := by
      rw [List.length_take]
      omega
    split
    · rename_i hcond
      have hlt := lastIndexOf_lt_length (text.take (maxTokens * 4)) '.'
      have hlt2 := lastIndexOf_lt_length (text.take (maxTokens * 4)) '!'
      have hlt3 := lastIndexOf_lt_length (text.take (maxTokens * 4)) '?'
      rw [hlen] at hlt hlt2 hlt3
      have hM : max (lastIndexOf (text.take (maxTokens * 4)) '.')
          (max (lastIndexOf (text.take (maxTokens * 4)) '!')
            (lastIndexOf (text.take (maxTokens * 4)) '?')) < ((maxTokens * 4 : Nat) : Int) :=
        max_lt hlt (max_lt hlt2 hlt3)
      have hcondQ : (10 : ℚ) * (max (lastIndexOf (text.take (maxTokens * 4)) '.')
          (max (lastIndexOf (text.take (maxTokens * 4)) '!')
            (lastIndexOf (text.take (maxTokens * 4)) '?')) : Int) >
          7 * ((maxTokens * 4 : Nat) : ℚ) := by
        push_cast at hcond ⊢
        linarith
      have hcondI : (10 : Int) * max (lastIndexOf (text.take (maxTokens * 4)) '.')
          (max (lastIndexOf (text.take (maxTokens * 4)) '!')
            (lastIndexOf (text.take (maxTokens * 4)) '?')) >
          7 * ((maxTokens * 4 : Nat) : Int) := by
        exact_mod_cast hcondQ
      have htk : (text.take ((max (lastIndexOf (text.take (maxTokens * 4)) '.')
          (max (lastIndexOf (text.take (maxTokens * 4)) '!')
            (lastIndexOf (text.take (maxTokens * 4)) '?'))).toNat + 1)).length ≤
          (max (lastIndexOf (text.take (maxTokens * 4)) '.')
          (max (lastIndexOf (text.take (maxTokens * 4)) '!')
            (lastIndexOf (text.take (maxTokens * 4)) '?'))).toNat + 1 :=
        List.length_take_le _ _
      omega
    · split
      · rename_i hsp
        have hlt := lastIndexOf_lt_length (text.take (maxTokens * 4)) ' '
        rw [hlen] at hlt
        have hspQ : (5 : ℚ) * (lastIndexOf (text.take (maxTokens * 4)) ' ' : Int) >
            4 * ((maxTokens * 4 : Nat) : ℚ) := by
          push_cast at hsp ⊢
          linarith
        have hspI : (5 : Int) * lastIndexOf (text.take (maxTokens * 4)) ' ' >
            4 * ((maxTokens * 4 : Nat) : Int) := by
          exact_mod_cast hspQ
        have htk : (text.take (lastIndexOf (text.take (maxTokens * 4)) ' ').toNat).length ≤
            (lastIndexOf (text.take (maxTokens * 4)) ' ').toNat :=
          List.length_take_le _ _
        omega
      · omega

lemma estimateTokens_truncateText_le (text : List Char) (maxTokens : Nat) :
    estimateTokens (truncateText text maxTokens) ≤ maxTokens := by
  rcases truncateText_length_le text maxTokens with h | h
  · have : truncateText text maxTokens = text := by
      unfold truncateText
      rw [if_pos h]
    rw [this]
    unfold estimateTokens
    omega
  · unfold estimateTokens
    omega

lemma packSnippets_sum_le (l : List Snippet) (remainingTokens : Nat) :
    ((packSnippets l remainingTokens).map estimateTokens).sum ≤ remainingTokens := by
  induction l generalizing remainingTokens with
  | nil => simp [packSnippets]
  | cons snippet rest ih =>
    unfold packSnippets
    dsimp only
    split
    · rename_i hfit
      have := ih (remainingTokens - estimateTokens snippet.text)
      simp only [List.map_cons, List.sum_cons]
      omega
    · split
      · split
        · simp only [List.map_cons, List.map_nil, List.sum_cons, List.sum_nil]
          have := estimateTokens_truncateText_le snippet.text remainingTokens
          omega
        · simp
      · simp

/-- Claim C7, counterexample. The claim "the packed context is never estimated
to exceed maxTokens, except when a single first/only snippet still
overflows after truncation" is false as stated: with budget 4 and two
snippets of 2 tokens each (each individually within budget, neither
truncated), the packed context's own token estimate is 5 > 4, because the
`"\n\n"` separator inserted by the join is never counted against the
budget. -/
theorem enforceTokenBudgetWithPriority_exceeds_budget :
    estimateTokens (enforceTokenBudgetWithPriority
      [⟨"aaaaaaaa".data, 9⟩, ⟨"bbbbbbbb".data, 5⟩] 4) = 5 ∧
    ∀ s ∈ [(⟨"aaaaaaaa".data, 9⟩ : Snippet), ⟨"bbbbbbbb".data, 5⟩],
      estimateTokens s.text ≤ 4 := by
  decide

/-- Claim C7, amended. Token-budget packing considers snippets in descending
score order (the stable sort by score), and the sum of the individual token
estimates of the snippets it selects never exceeds `maxTokens` — in
particular a truncated snippet always fits its remaining budget, so the
claimed "single overflowing first snippet" exception cannot occur.  The
join's `"\n\n"` separators are however not counted, so the returned
context's own estimate can exceed `maxTokens` (see the counterexample). -/
theorem enforceTokenBudgetWithPriority_bounded
    (snippets : List Snippet) (maxTokens : Nat) :
    ((packSnippets (sortedSnippets snippets) maxTokens).map estimateTokens).sum ≤
        maxTokens ∧
      List.Sorted (fun a b : Snippet => a.score ≥ b.score)
        (sortedSnippets snippets) := by
  refine ⟨packSnippets_sum_le _ _, ?_⟩
  haveI : IsTotal Snippet (fun a b => a.score ≥ b.score) :=
    ⟨fun a b => le_total b.score a.score⟩
  haveI : IsTrans Snippet (fun a b => a.score ≥ b.score) :=
    ⟨fun _ _ _ h1 h2 => le_trans h2 h1⟩
  exact List.sorted_insertionSort _ _

end Budget

namespace MMR

/-- `new Set` keeps a nodup list unchanged. -/
lemma jsSet_aux (l : List String) : ∀ acc : List String,
    (∀ x ∈ l, x ∉ acc) → l.Nodup →
    l.foldl (fun acc x => if x ∈ acc then acc else acc ++ [x]) acc = acc ++ l := by
  induction l with
  | nil => intro acc _ _; simp
  | cons x xs ih =>
    intro acc hdisj hnd
    simp only [List.foldl_cons]
    rw [if_neg (hdisj x (List.mem_cons_self x xs))]
    rw [ih (acc ++ [x]) ?_ (List.Nodup.of_cons hnd)]
    · simp
    · intro y hy
      simp only [List.mem_append, List.mem_singleton]
      rintro (hmem | rfl)
      · exact hdisj y (List.mem_cons_of_mem x hy) hmem
      · exact (List.nodup_cons.mp hnd).1 hy

lemma jsSet_eq_of_nodup (l : List String) (h : l.Nodup) : jsSet l = l := by
  unfold jsSet
  rw [jsSet_aux l [] (by simp) h]
  simp

lemma relevanceOf_found {items : List MMRItem} {id : String} {item : MMRItem}
    (sim : List ℚ → List ℚ → ℚ) (queryVec : List ℚ)
    (hitem : items.find? (fun i => i.id == id) = some item) :
    relevanceOf sim items queryVec id = sim queryVec item.vec := by
  unfold relevanceOf
  rw [hitem]

lemma considerCandidate_one_found (sim : List ℚ → List ℚ → ℚ)
    (items : List MMRItem) (queryVec : List ℚ) (selected : List MMRItem)
    (b : String) (s : ℚ) (id : String) (item : MMRItem)
    (hitem : items.find? (fun i => i.id == id) = some item) :
    considerCandidate sim items queryVec 1 selected (some (b, s)) id =
      if relevanceOf sim items queryVec id > s then
        some (id, relevanceOf sim items queryVec id)
      else some (b, s) := by
  unfold considerCandidate
  rw [hitem, relevanceOf_found sim queryVec hitem]
  dsimp only
  rw [show (1 : ℚ) * sim queryVec item.vec -
      (1 - 1) * calculateDiversity sim id selected items = sim queryVec item.vec by ring]

lemma considerCandidate_one_none (sim : List ℚ → List ℚ → ℚ)
    (items : List MMRItem) (queryVec : List ℚ) (selected : List MMRItem)
    (id : String) (item : MMRItem)
    (hitem : items.find? (fun i => i.id == id) = some item) :
    considerCandidate sim items queryVec 1 selected none id =
      some (id, relevanceOf sim items queryVec id) := by
  unfold considerCandidate
  rw [hitem, relevanceOf_found sim queryVec hitem]
  dsimp only
  rw [show (1 : ℚ) * sim queryVec item.vec -
      (1 - 1) * calculateDiversity sim id selected items = sim queryVec item.vec by ring]

lemma pickBest_one_go (sim : List ℚ → List ℚ → ℚ) (items : List MMRItem)
    (queryVec : List ℚ) (selected : List MMRItem) (l : List String) :
    ∀ b : String, (∀ id ∈ l, (items.find? (fun i => i.id == id)).isSome) →
    ∃ bestId,
      l.foldl (considerCandidate sim items queryVec 1 selected)
          (some (b, relevanceOf sim items queryVec b)) =
        some (bestId, relevanceOf sim items queryVec bestId) ∧
      (bestId = b ∨ bestId ∈ l) ∧
      relevanceOf sim items queryVec b ≤ relevanceOf sim items queryVec bestId ∧
      ∀ id ∈ l, relevanceOf sim items queryVec id ≤
        relevanceOf sim items queryVec bestId := by
  induction l with
  | nil =>
    intro b _
    exact ⟨b, rfl, Or.inl rfl, le_refl _, by simp⟩
  | cons id rest ih =>
    intro b hfound
    obtain ⟨item, hitem⟩ :=
      Option.isSome_iff_exists.mp (hfound id (List.mem_cons_self id rest))
    rw [List.foldl_cons,
      considerCandidate_one_found sim items queryVec selected b _ id item hitem]
    by_cases hgt : relevanceOf sim items queryVec id > relevanceOf sim items queryVec b
    · rw [if_pos hgt]
      obtain ⟨bestId, heq, hmem, hle, hall⟩ :=
        ih id (fun i hi => hfound i (List.mem_cons_of_mem id hi))
      refine ⟨bestId, heq, ?_, le_trans (le_of_lt hgt) hle, ?_⟩
      · rcases hmem with rfl | hmem
        · exact Or.inr (List.mem_cons_self _ _)
        · exact Or.inr (List.mem_cons_of_mem id hmem)
      · intro i hi
        rcases List.mem_cons.mp hi with rfl | hi
        · exact hle
        · exact hall i hi
    · rw [if_neg hgt]
      obtain ⟨bestId, heq, hmem, hle, hall⟩ :=
        ih b (fun i hi => hfound i (List.mem_cons_of_mem id hi))
      refine ⟨bestId, heq, ?_, hle, ?_⟩
      · rcases hmem with rfl | hmem
        · exact Or.inl rfl
        · exact Or.inr (List.mem_cons_of_mem id hmem)
      · intro i hi
        rcases List.mem_cons.mp hi with rfl | hi
        · exact le_trans (le_of_not_lt hgt) hle
        · exact hall i hi

lemma pickBest_one_spec (sim : List ℚ → List ℚ → ℚ) (items : List MMRItem)
    (queryVec : List ℚ) (selected : List MMRItem) (remaining : List String)
    (hne : remaining ≠ [])
    (hfound : ∀ id ∈ remaining, (items.find? (fun i => i.id == id)).isSome) :
    ∃ bestId,
      pickBest sim items queryVec 1 selected remaining =
        some (bestId, relevanceOf sim items queryVec bestId) ∧
      bestId ∈ remaining ∧
      ∀ id ∈ remaining, relevanceOf sim items queryVec id ≤
        relevanceOf sim items queryVec bestId := by
  cases remaining with
  | nil => exact absurd rfl hne
  | cons id rest =>
    obtain ⟨item, hitem⟩ :=
      Option.isSome_iff_exists.mp (hfound id (List.mem_cons_self id rest))
    unfold pickBest
    rw [List.foldl_cons,
      considerCandidate_one_none sim items queryVec selected id item hitem]
    obtain ⟨bestId, heq, hmem, hle, hall⟩ :=
      pickBest_one_go sim items queryVec selected rest id
        (fun i hi => hfound i (List.mem_cons_of_mem id hi))
    refine ⟨bestId, heq, ?_, ?_⟩
    · rcases hmem with rfl | hmem
      · exact List.mem_cons_self _ _
      · exact List.mem_cons_of_mem id hmem
    · intro i hi
      rcases List.mem_cons.mp hi with rfl | hi
      · exact hle
      · exact hall i hi

/-- Invariant proof for the MMR `while` loop at `λ = 1`: the selection is
greedy-by-relevance, so the selected items are pairwise descending in
relevance, the loop selects exactly `k` items while candidates remain, and
every selected item's relevance dominates every unselected candidate's. -/
lemma mmrLoop_one_spec (sim : List ℚ → List ℚ → ℚ) (items : List MMRItem)
    (queryVec : List ℚ) (k : Nat) :
    ∀ (fuel : Nat) (selected : List MMRItem) (remaining : List String),
    fuel = remaining.length →
    (∀ id ∈ remaining, (items.find? (fun i => i.id == id)).isSome) →
    (∀ id ∈ remaining, id ≠ "") →
    ((selected.map (·.id)) ++ remaining).Nodup →
    (∀ s ∈ selected, ∀ id ∈ remaining,
      relevanceOf sim items queryVec id ≤ relevanceOf sim items queryVec s.id) →
    List.Pairwise (fun a b : MMRItem =>
      relevanceOf sim items queryVec b.id ≤ relevanceOf sim items queryVec a.id)
      selected →
    List.Pairwise (fun a b : MMRItem =>
        relevanceOf sim items queryVec b.id ≤ relevanceOf sim items queryVec a.id)
        (mmrLoop sim items queryVec 1 k fuel selected remaining) ∧
      (selected.length ≤ k →
        (mmrLoop sim items queryVec 1 k fuel selected remaining).length =
          min k (selected.length + remaining.length)) ∧
      ∃ rem',
        List.Perm
          (((mmrLoop sim items queryVec 1 k fuel selected remaining).map (·.id)) ++
            rem') ((selected.map (·.id)) ++ remaining) ∧
        ∀ s ∈ mmrLoop sim items queryVec 1 k fuel selected remaining,
          ∀ id ∈ rem', relevanceOf sim items queryVec id ≤
            relevanceOf sim items queryVec s.id := by
  intro fuel
  induction fuel with
  | zero =>
    intro selected remaining hfuel _ _ _ hdom hpair
    have hrem : remaining = [] := List.eq_nil_of_length_eq_zero hfuel.symm
    subst hrem
    refine ⟨hpair, ?_, [], by simp [mmrLoop], ?_⟩
    · intro hsel
      simp [mmrLoop, Nat.min_eq_right hsel]
    · intro s hs id hid
      simp at hid
  | succ fuel ih =>
    intro selected remaining hfuel hfound hids hnd hdom hpair
    have hne : remaining ≠ [] := by
      intro h
      subst h
      simp at hfuel
    by_cases hcond : selected.length < k
    · have hcond2 : selected.length < k ∧ ¬remaining.isEmpty := by
        refine ⟨hcond, ?_⟩
        simp [hne]
      obtain ⟨bestId, hpick, hbmem, hbmax⟩ :=
        pickBest_one_spec sim items queryVec selected remaining hne hfound
      obtain ⟨item, hitem⟩ := Option.isSome_iff_exists.mp (hfound bestId hbmem)
      have hitem_id : item.id = bestId := by
        have := List.find?_some hitem
        exact eq_of_beq this
      have hb0 : bestId ≠ "" := hids bestId hbmem
      have hloop : mmrLoop sim items queryVec 1 k (fuel + 1) selected remaining =
          mmrLoop sim items queryVec 1 k fuel (selected ++ [item])
            (remaining.erase bestId) := by
        rw [mmrLoop, if_pos hcond2, hpick]
        dsimp only
        rw [if_neg hb0, hitem]
      have hfuel' : fuel = (remaining.erase bestId).length := by
        have := List.length_erase_of_mem hbmem
        omega
      have hfound' : ∀ id ∈ remaining.erase bestId,
          (items.find? (fun i => i.id == id)).isSome :=
        fun id hid => hfound id (List.mem_of_mem_erase hid)
      have hids' : ∀ id ∈ remaining.erase bestId, id ≠ "" :=
        fun id hid => hids id (List.mem_of_mem_erase hid)
      have hpermfull : List.Perm ((selected.map (·.id)) ++ remaining)
          (((selected ++ [item]).map (·.id)) ++ remaining.erase bestId) := by
        rw [List.map_append]
        have h1 : List.Perm ((selected.map (·.id)) ++ remaining)
            ((selected.map (·.id)) ++ (bestId :: remaining.erase bestId)) :=
          List.Perm.append_left _ (List.perm_cons_erase hbmem)
        have h2 : (selected.map (·.id)) ++ (bestId :: remaining.erase bestId) =
            ((selected.map (·.id)) ++ [item].map (·.id)) ++ remaining.erase bestId := by
          simp [hitem_id]
        rw [← h2]
        exact h1
      have hnd' : (((selected ++ [item]).map (·.id)) ++ remaining.erase bestId).Nodup :=
        hpermfull.nodup hnd
      have hdom' : ∀ s ∈ selected ++ [item], ∀ id ∈ remaining.erase bestId,
          relevanceOf sim items queryVec id ≤ relevanceOf sim items queryVec s.id := by
        intro s hs id hid
        rcases List.mem_append.mp hs with hs | hs
        · exact hdom s hs id (List.mem_of_mem_erase hid)
        · have : s = item := List.mem_singleton.mp hs
          subst this
          rw [hitem_id]
          exact hbmax id (List.mem_of_mem_erase hid)
      have hpair' : List.Pairwise (fun a b : MMRItem =>
          relevanceOf sim items queryVec b.id ≤ relevanceOf sim items queryVec a.id)
          (selected ++ [item]) := by
        rw [List.pairwise_append]
        refine ⟨hpair, List.pairwise_singleton _ _, ?_⟩
        intro a ha b hb
        have : b = item := List.mem_singleton.mp hb
        subst this
        rw [hitem_id]
        exact hdom a ha bestId hbmem
      obtain ⟨ihp, ihlen, rem', ihperm, ihdom2⟩ :=
        ih (selected ++ [item]) (remaining.erase bestId) hfuel' hfound' hids'
          hnd' hdom' hpair'
      rw [hloop]
      refine ⟨ihp, ?_, rem', ihperm.trans hpermfull.symm, ihdom2⟩
      intro _
      rw [ihlen (by simp; omega)]
      have hlen1 : (remaining.erase bestId).length = remaining.length - 1 :=
        List.length_erase_of_mem hbmem
      have hlen2 : 1 ≤ remaining.length := by
        cases remaining with
        | nil => exact absurd rfl hne
        | cons a l => simp
      simp only [List.length_append, List.length_singleton]
      congr 1
      omega
    · have hcond2 : ¬(selected.length < k ∧ ¬remaining.isEmpty) := by
        intro h
        exact hcond h.1
      have hloop : mmrLoop sim items queryVec 1 k (fuel + 1) selected remaining =
          selected := by
        rw [mmrLoop, if_neg hcond2]
      rw [hloop]
      refine ⟨hpair, ?_, remaining, List.Perm.refl _, hdom⟩
      intro hsel
      have : selected.length = k := by omega
      rw [this]
      have : k ≤ k + remaining.length := Nat.le_add_right _ _
      rw [Nat.min_eq_left this]

/-- Claim C5, counterexample. With `λ = 1` and `k` equal to the number of
candidates, `mmr` takes the `k >= items.length` shortcut and returns the
ids ordered by `baseScore` descending, not by relevance: candidate `"a"`
(baseScore 9, relevance 0) is returned before candidate `"b"` (baseScore 5,
relevance 1), although `"b"` is strictly more relevant to the query.  The
vectors are unit vectors, so the rational dot product used as `sim` is
exactly their cosine similarity. -/
theorem mmr_lambda_one_baseScore_order :
    mmr simDot [⟨"a", [0, 1], 9⟩, ⟨"b", [1, 0], 5⟩] [1, 0] 1 2 = ["a", "b"] ∧
    simDot [1, 0] [0, 1] < simDot [1, 0] [1, 0] := by
  constructor
  · decide
  · norm_num [simDot]

/-- Claim C5, amended. With `λ = 1` and `k` smaller than the number of
candidates (with pairwise-distinct ids), the MMR loop is a pure-relevance
ranking: it returns exactly `k` ids, in descending order of relevance to
the query vector, and every returned id's relevance is at least that of
every candidate left out.  (When `k ≥` the number of candidates the code
instead returns all ids sorted by `baseScore` descending — see the
counterexample.)  Stated for every similarity function `sim` standing for
the float cosine similarity. -/
theorem mmr_lambda_one_relevance_ranking (sim : List ℚ → List ℚ → ℚ)
    (items : List MMRItem) (queryVec : List ℚ) (k : Nat)
    (hnd : (items.map (·.id)).Nodup) (hid0 : "" ∉ items.map (·.id))
    (hk : k < items.length) :
    List.Pairwise (fun a b =>
      relevanceOf sim items queryVec b ≤ relevanceOf sim items queryVec a)
      (mmr sim items queryVec 1 k) ∧
    (mmr sim items queryVec 1 k).length = k ∧
    ∃ rest, List.Perm ((mmr sim items queryVec 1 k) ++ rest) (items.map (·.id)) ∧
      ∀ a ∈ mmr sim items queryVec 1 k, ∀ b ∈ rest,
        relevanceOf sim items queryVec b ≤ relevanceOf sim items queryVec a := by
  have hne : items ≠ [] := by
    intro h
    subst h
    simp at hk
  by_cases hk0 : k = 0
  · subst hk0
    have hz : mmr sim items queryVec 1 0 = [] := by
      unfold mmr
      simp
    rw [hz]
    exact ⟨List.Pairwise.nil, rfl, items.map (·.id), by simp, by simp⟩
  · have hmmr : mmr sim items queryVec 1 k =
        (mmrLoop sim items queryVec 1 k (items.map (·.id)).length []
          (items.map (·.id))).map (·.id) := by
      unfold mmr
      rw [if_neg (by simp [hne]), if_neg hk0, if_neg (by omega)]
      dsimp only
      rw [jsSet_eq_of_nodup _ hnd]
    have hfound : ∀ id ∈ items.map (·.id),
        (items.find? (fun i => i.id == id)).isSome := by
      intro id hid
      obtain ⟨it, hit, rfl⟩ := List.mem_map.mp hid
      rw [List.find?_isSome]
      exact ⟨it, hit, by simp⟩
    obtain ⟨hp, hlen, rem', hperm, hdom3⟩ :=
      mmrLoop_one_spec sim items queryVec k (items.map (·.id)).length []
        (items.map (·.id)) rfl hfound
        (fun id hid h0 => hid0 (h0 ▸ hid)) (by simpa using hnd) (by simp)
        List.Pairwise.nil
    rw [hmmr]
    refine ⟨List.pairwise_map.mpr hp, ?_, rem', ?_, ?_⟩
    · rw [List.length_map, hlen (Nat.zero_le k)]
      simp [Nat.min_eq_left (le_of_lt hk)]
    · simpa using hperm
    · intro a ha b hb
      obtain ⟨s, hs, rfl⟩ := List.mem_map.mp ha
      exact hdom3 s hs b hb

/-- Witness for C5's amended theorem: three candidates, `k = 2`, query
`[1,0]`; the loop returns `"b"` (relevance 1) then `"c"` (relevance 1,
later in input order), leaving out `"a"` (relevance 0). -/
theorem mmr_lambda_one_relevance_ranking_witness :
    (([(⟨"a", [0, 1], 9⟩ : MMRItem), ⟨"b", [1, 0], 5⟩,
        ⟨"c", [1, 1], 1⟩].map (·.id)).Nodup ∧
      2 < [(⟨"a", [0, 1], 9⟩ : MMRItem), ⟨"b", [1, 0], 5⟩,
        ⟨"c", [1, 1], 1⟩].length) ∧
    List.Pairwise (fun a b =>
      relevanceOf simDot [⟨"a", [0, 1], 9⟩, ⟨"b", [1, 0], 5⟩, ⟨"c", [1, 1], 1⟩]
          [1, 0] b ≤
        relevanceOf simDot [⟨"a", [0, 1], 9⟩, ⟨"b", [1, 0], 5⟩, ⟨"c", [1, 1], 1⟩]
          [1, 0] a)
      (mmr simDot [⟨"a", [0, 1], 9⟩, ⟨"b", [1, 0], 5⟩, ⟨"c", [1, 1], 1⟩]
        [1, 0] 1 2) ∧
    (mmr simDot [⟨"a", [0, 1], 9⟩, ⟨"b", [1, 0], 5⟩, ⟨"c", [1, 1], 1⟩]
        [1, 0] 1 2).length = 2 ∧
    ∃ rest,
      List.Perm
        ((mmr simDot [⟨"a", [0, 1], 9⟩, ⟨"b", [1, 0], 5⟩, ⟨"c", [1, 1], 1⟩]
            [1, 0] 1 2) ++ rest)
        ([(⟨"a", [0, 1], 9⟩ : MMRItem), ⟨"b", [1, 0], 5⟩,
            ⟨"c", [1, 1], 1⟩].map (·.id)) ∧
      ∀ a ∈ mmr simDot [⟨"a", [0, 1], 9⟩, ⟨"b", [1, 0], 5⟩, ⟨"c", [1, 1], 1⟩]
          [1, 0] 1 2,
        ∀ b ∈ rest,
          relevanceOf simDot
              [⟨"a", [0, 1], 9⟩, ⟨"b", [1, 0], 5⟩, ⟨"c", [1, 1], 1⟩] [1, 0] b ≤
            relevanceOf simDot
              [⟨"a", [0, 1], 9⟩, ⟨"b", [1, 0], 5⟩, ⟨"c", [1, 1], 1⟩] [1, 0] a :=
  ⟨⟨by decide, by decide⟩,
    mmr_lambda_one_relevance_ranking simDot
      [⟨"a", [0, 1], 9⟩, ⟨"b", [1, 0], 5⟩, ⟨"c", [1, 1], 1⟩] [1, 0] 2
      (by decide) (by decide) (by decide)⟩

end MMR

namespace RAG

/-- Claim C8, counterexample. The tag filter is not case-insensitive on the
candidate side: a candidate tagged `"AI"` is dropped by the filter
`{tags: ["AI"]}` (the requested tag is lowercased to `"ai"` and compared
verbatim against the stored `"AI"`), although a case-insensitive any-match
— here even a verbatim match — holds between the requested and stored
tags. -/
theorem filterCandidates_tag_case_sensitive :
    filterCandidates [⟨"a", [], [], ["AI"], none, none⟩]
        (some ⟨some ["AI"], none, none⟩) = [] ∧
      ∃ t ∈ ["AI"], ∃ ct ∈ ["AI"], jsToLower t = jsToLower ct := by
  constructor
  · decide
  · exact ⟨"AI", by decide, "AI", by decide, rfl⟩

/-- Claim C8, amended. `filterCandidates` keeps exactly the candidates that
pass all supplied filters (logical AND); a missing filter object keeps all
candidates, and each individual filter is skipped when absent (or, for the
tag filter, empty).  The time-range filter has inclusive bounds on the
occurrence timestamp (a candidate without one passes), and the importance
filter is a floor on the candidate's importance (defaulted to 0).  The tag
filter however matches the *lowercased requested* tag verbatim against the
stored candidate tags — case-insensitive matching only holds when the
stored tags are lowercase. -/
theorem filterCandidates_characterization (candidates : List Candidate)
    (f : Filters) (c : Candidate) :
    (c ∈ filterCandidates candidates (some f) ↔
      c ∈ candidates ∧
      (∀ tags, f.tags = some tags → tags ≠ [] →
        ∃ t ∈ tags, jsToLower t ∈ c.tags) ∧
      (∀ tstart tstop, f.timeRange = some (tstart, tstop) →
        ∀ occ, c.occurredAt = some occ → tstart ≤ occ ∧ occ ≤ tstop) ∧
      (∀ floor, f.importance = some floor → floor ≤ c.importance.getD 0)) ∧
    filterCandidates candidates none = candidates := by
  refine ⟨?_, rfl⟩
  rw [show filterCandidates candidates (some f) =
    candidates.filter (candidatePasses f) from rfl, List.mem_filter]
  refine and_congr_right fun _ => ?_
  unfold candidatePasses
  rcases f with ⟨ftags, ftime, fimp⟩
  simp only [Bool.and_eq_true]
  rw [and_assoc]
  refine and_congr ?_ (and_congr ?_ ?_)
  · cases ftags with
    | none => simp
    | some tags =>
      cases tags with
      | nil => simp
      | cons t ts =>
        dsimp only
        rw [if_pos (by simp)]
        simp only [List.any_eq_true, Option.some.injEq]
        constructor
        · rintro ⟨tag, htag, hct⟩
          rintro tags' rfl _
          exact ⟨tag, htag, List.elem_iff.mp hct⟩
        · intro h
          obtain ⟨tag, htag, hct⟩ := h (t :: ts) rfl (by simp)
          exact ⟨tag, htag, List.elem_iff.mpr hct⟩
  · cases ftime with
    | none => simp
    | some se =>
      rcases se with ⟨tstart, tstop⟩
      cases hocc : c.occurredAt with
      | none => simp [hocc]
      | some occ =>
        simp only [hocc, Option.some.injEq, Prod.mk.injEq, decide_eq_true_eq]
        constructor
        · intro h
          rintro a b ⟨rfl, rfl⟩ o rfl
          push_neg at h
          exact h
        · intro h
          push_neg
          exact h tstart tstop ⟨rfl, rfl⟩ occ rfl
  · cases fimp with
    | none => simp
    | some floor =>
      simp only [Option.some.injEq, decide_eq_true_eq]
      constructor
      · intro h
        rintro fl rfl
        exact le_of_not_lt h
      · intro h
        exact not_lt.mpr (h floor rfl)

/-- Claim C6. Divergence witness: a single candidate `"a"` whose similarity
to the query is 1 (constant `sim`), no filters, `maxCitations = 5`.  The
selector's score map records relevance 1 for `"a"`, and one item is
selected, so the claimed confidence — mean selected relevance times
`min(count/maxCitations, 1)` — is `1/5`; but the pipeline returns
confidence 0, because `query` builds its MMR items with the placeholder
`score: 0` ("Will be calculated by MMR") and the relevances in the score
map are never copied back into the selected items. -/
theorem pipelineQuery_confidence_zero :
    (pipelineQuery ⟨10, 1, 0, 5⟩ (fun _ _ => 1) [1] none
        [⟨"a", ['x'], [1], [], none, none⟩]).2 = 0 ∧
    (selectorSelect (fun _ _ => 1) 1 10 [1]
        [⟨"a", 0, ['x']⟩] [("a", [1])]).2.lookup "a" = some 1 ∧
    claimConfidence [1] 5 = 1 / 5 := by
  refine ⟨?_, ?_, ?_⟩
  · have ha : ("a" : String) ≠ "" := by decide
    norm_num [pipelineQuery, filterCandidates, selectorSelect, selectorScores,
      jsMapSet, MMR.jsSet, selectLoop, selectorConsider, selectorDiversity,
      calculateConfidence, List.lookup, ha]
  · norm_num [selectorSelect, selectorScores, jsMapSet, List.lookup]
  · norm_num [claimConfidence]

end RAG

namespace Chunker

/-- The integer `minChunkTokens` test used by the embedding decides exactly
the source's rational comparison `currentTokens >= min(20, targetTokens/8)`. -/
lemma meetsMinChunk_iff (t c : Nat) :
    meetsMinChunk t c = true ↔ (c : ℚ) ≥ min 20 ((t : ℚ) / 8) := by
  unfold meetsMinChunk
  rw [decide_eq_true_eq, ge_iff_le, min_le_iff]
  apply or_congr
  · exact_mod_cast Iff.rfl
  · rw [div_le_iff₀ (by norm_num : (0 : ℚ) < 8)]
    constructor
    · intro h
      have hq : (t : ℚ) ≤ (8 : ℚ) * c := by exact_mod_cast h
      linarith
    · intro h
      have hq : (t : ℚ) ≤ (8 : ℚ) * c := by linarith
      exact_mod_cast hq

/-- Claim C3. Failing input (from the repository's own test
`'handles text with whitespace between sentences'`): the TypeScript
`chunkText` accumulates *trimmed sentence texts joined with single spaces*
but records offsets into the raw input, so on
`"First.   \n\n   Second."` with `(targetTokens, overlapTokens) = (30, 10)`
it returns the single chunk `{start: 0, end: 14, text: "First. Second."}`
whose slice of the source is `"First.   \n\n   "` — `validateChunks`
rejects it, and even the trimmed slice (`"First."`) differs from the
chunk's text, contradicting the claimed postcondition. -/
theorem chunkText_breaks_offset_postcondition :
    chunkText "First.   \n\n   Second.".data 30 10 =
      [⟨0, 14, "First. Second.".data⟩] ∧
    validateChunks (chunkText "First.   \n\n   Second.".data 30 10)
      "First.   \n\n   Second.".data = false ∧
    ∃ c ∈ chunkText "First.   \n\n   Second.".data 30 10,
      jsTrim (jsSlice "First.   \n\n   Second.".data c.start c.stop) ≠ c.text := by
  refine ⟨by decide, by decide, ?_⟩
  refine ⟨⟨0, 14, "First. Second.".data⟩, by decide, by decide⟩

/-- Claim C10, counterexample. On `"A.B.C."` (length 6) with the default
configuration, the TypeScript `chunkText` returns a chunk whose `end`
offset is 8 — past the end of the input — because the accumulated chunk
text `"A. B. C."` (trimmed sentences joined with spaces) is longer than
the raw input it is supposed to span. -/
theorem chunkText_offsets_out_of_bounds :
    chunkText "A.B.C.".data 600 80 = [⟨0, 8, "A. B. C.".data⟩] ∧
    ("A.B.C.".data).length < 8 := by
  exact ⟨by decide, by decide⟩

/-- A `chunkText` loop iteration either leaves the chunk list unchanged or
appends the closed current chunk, whose `end` is its `start` plus the
accumulated text's length. -/
lemma chunkStep_chunks (t o : Nat) (st : ChunkState) (s : Sentence) :
    (chunkStep t o st s).chunks = st.chunks ∨
    (chunkStep t o st s).chunks =
      st.chunks ++ [⟨st.currentStart,
        st.currentStart + st.currentChunk.length, jsTrim st.currentChunk⟩] := by
  unfold chunkStep
  by_cases hbr : estimateTokens (st.currentChunk ++
      (if st.currentChunk.isEmpty then [] else [' ']) ++ s.text) > t ∧
      meetsMinChunk t st.currentTokens = true
  · rw [if_pos hbr]
    right
    rfl
  · rw [if_neg hbr]
    left
    rfl

/-- Claim C10, amended. Every chunk returned by the TypeScript `chunkText`
satisfies `chunk.start ≤ chunk.end` (the span has nonnegative width); the
claimed in-bounds property `0 ≤ start` and `end ≤ input.length` is false
for this variant (see the counterexample — the JS variant of the chunker
clamps `start` at 0 and takes `end` from sentence offsets instead). -/
theorem chunkText_start_le_stop (input : List Char) (t o : Nat) :
    ∀ c ∈ chunkText input t o, c.start ≤ c.stop := by
  intro c hc
  unfold chunkText at hc
  by_cases h0 : input.isEmpty ∨ (jsTrim input).length = 0
  · rw [if_pos h0] at hc
    simp at hc
  · rw [if_neg h0] at hc
    dsimp only at hc
    by_cases h1 : (splitIntoSentences input).isEmpty
    · rw [if_pos h1] at hc
      simp at hc
    · rw [if_neg h1] at hc
      have key : ∀ (sentences : List Sentence) (st : ChunkState),
          (∀ d ∈ st.chunks, d.start ≤ d.stop) →
          ∀ d ∈ (sentences.foldl (chunkStep t o) st).chunks, d.start ≤ d.stop := by
        intro sentences
        induction sentences with
        | nil => intro st h; exact h
        | cons s rest ih =>
          intro st h
          rw [List.foldl_cons]
          apply ih
          intro d hd
          rcases chunkStep_chunks t o st s with heq | heq
          · rw [heq] at hd
            exact h d hd
          · rw [heq] at hd
            rcases List.mem_append.mp hd with hd | hd
            · exact h d hd
            · have hd2 : d = ⟨st.currentStart,
                  st.currentStart + st.currentChunk.length,
                  jsTrim st.currentChunk⟩ := List.mem_singleton.mp hd
              subst hd2
              exact le_add_of_nonneg_right (Int.natCast_nonneg _)
      have hbase := key (splitIntoSentences input) ⟨[], [], 0, 0⟩ (by simp)
      split at hc
      · rcases List.mem_append.mp hc with hc | hc
        · exact hbase c hc
        · have : c = ⟨((splitIntoSentences input).foldl (chunkStep t o)
                ⟨[], [], 0, 0⟩).currentStart,
              ((splitIntoSentences input).foldl (chunkStep t o)
                ⟨[], [], 0, 0⟩).currentStart +
                ((splitIntoSentences input).foldl (chunkStep t o)
                  ⟨[], [], 0, 0⟩).currentChunk.length,
              jsTrim ((splitIntoSentences input).foldl (chunkStep t o)
                ⟨[], [], 0, 0⟩).currentChunk⟩ := List.mem_singleton.mp hc
          subst this
          exact le_add_of_nonneg_right (Int.natCast_nonneg _)
      · exact hbase c hc

/-- Witness for C10's amended theorem at the counterexample input: the
out-of-bounds chunk still has `start ≤ end`. -/
theorem chunkText_start_le_stop_witness :
    (⟨0, 8, "A. B. C.".data⟩ : Chunk) ∈ chunkText "A.B.C.".data 600 80 ∧
    ((⟨0, 8, "A. B. C.".data⟩ : Chunk).start ≤
      (⟨0, 8, "A. B. C.".data⟩ : Chunk).stop) :=
  ⟨by decide,
    chunkText_start_le_stop "A.B.C.".data 600 80 ⟨0, 8, "A. B. C.".data⟩
      (by decide)⟩

end Chunker

namespace Crypto

lemma xorDecrypt_append (key nonce b t : List Nat) (hlen : b.length = t.length) :
    xorDecrypt key nonce (b ++ t) =
      if t = b.map (· ^^^ tagByte key nonce) then
        some (b.map (· ^^^ ksByte key nonce))
      else none := by
  unfold xorDecrypt
  have h1 : (b ++ t).length % 2 = 0 := by
    rw [List.length_append]
    omega
  have h2 : (b ++ t).length / 2 = b.length := by
    rw [List.length_append]
    omega
  rw [if_pos h1, h2, List.take_left, List.drop_left]

lemma xorDecrypt_encrypt (key nonce p : List Nat) :
    xorDecrypt key nonce (xorEncrypt key nonce p) = some p := by
  unfold xorEncrypt
  rw [xorDecrypt_append key nonce _ _ (by simp)]
  rw [if_pos rfl, List.map_map]
  congr 1
  have : ((fun x => x ^^^ ksByte key nonce) ∘ fun x => x ^^^ ksByte key nonce) =
      id := by
    funext a
    simp [Function.comp, Nat.xor_cancel_right]
  rw [this, List.map_id]

lemma xorDecrypt_flip_aux (key nonce b t : List Nat)
    (ht : t = b.map (· ^^^ tagByte key nonce)) (i m : Nat)
    (hi : i < (b ++ t).length) (_hm : m < 8) :
    xorDecrypt key nonce (flipBit (b ++ t) i m) = none := by
  have hlen : b.length = t.length := by
    rw [ht, List.length_map]
  have h2pow : (2 : Nat) ^ m ≠ 0 := (Nat.two_pow_pos m).ne'
  rw [List.length_append] at hi
  by_cases hin : i < b.length
  · have hgetc : (b ++ t).getD i 0 = b[i] := by
      have h0 : (b ++ t)[i]? = some b[i] := by
        rw [List.getElem?_append_left hin]
        exact List.getElem?_eq_getElem hin
      rw [List.getD_eq_getElem?_getD, h0]
      rfl
    have hset : flipBit (b ++ t) i m = b.set i (b[i] ^^^ 2 ^ m) ++ t := by
      unfold flipBit
      rw [hgetc, List.set_append_left _ _ hin]
    rw [hset, xorDecrypt_append key nonce _ _ (by rw [List.length_set]; exact hlen)]
    rw [if_neg ?_]
    intro heq
    rw [ht, List.map_set] at heq
    have hif : i < (b.map (· ^^^ tagByte key nonce)).length := by
      rw [List.length_map]
      exact hin
    have h1 := congrArg (fun l => l[i]?) heq
    simp only [List.getElem?_set_self hif, List.getElem?_eq_getElem hif,
      List.getElem_map] at h1
    have h2 : b[i] ^^^ tagByte key nonce =
        (b[i] ^^^ 2 ^ m) ^^^ tagByte key nonce := Option.some.inj h1
    have h3 : b[i] = b[i] ^^^ 2 ^ m := Nat.xor_left_inj.mp h2
    have h4 : b[i] ^^^ b[i] = b[i] ^^^ (b[i] ^^^ 2 ^ m) := by rw [← h3]
    rw [Nat.xor_self, Nat.xor_cancel_left] at h4
    exact h2pow h4.symm
  · push_neg at hin
    have hj : i - b.length < t.length := by omega
    have hgetc : (b ++ t).getD i 0 = t[i - b.length] := by
      have h0 : (b ++ t)[i]? = some t[i - b.length] := by
        rw [List.getElem?_append_right hin]
        exact List.getElem?_eq_getElem hj
      rw [List.getD_eq_getElem?_getD, h0]
      rfl
    have hset : flipBit (b ++ t) i m =
        b ++ t.set (i - b.length) (t[i - b.length] ^^^ 2 ^ m) := by
      unfold flipBit
      rw [hgetc, List.set_append_right _ _ hin]
    rw [hset, xorDecrypt_append key nonce _ _ (by rw [List.length_set]; exact hlen)]
    rw [if_neg ?_]
    intro heq
    rw [← ht] at heq
    have h1 := congrArg (fun l => l[i - b.length]?) heq
    simp only [List.getElem?_set_self hj, List.getElem?_eq_getElem hj] at h1
    have h1x := Option.some.inj h1
    have h4 : t[i - b.length] ^^^ (t[i - b.length] ^^^ 2 ^ m) =
        t[i - b.length] ^^^ t[i - b.length] := by
      rw [h1x]
    rw [Nat.xor_self, Nat.xor_cancel_left] at h4
    exact h2pow h4

/-- The concrete instance rejects any single-bit flip of a ciphertext. -/
lemma xorDecrypt_flip (key nonce p : List Nat) (i m : Nat)
    (hi : i < (xorEncrypt key nonce p).length) (hm : m < 8) :
    xorDecrypt key nonce (flipBit (xorEncrypt key nonce p) i m) = none :=
  xorDecrypt_flip_aux key nonce _ _ rfl i m hi hm

/-- A concrete executable AEAD satisfying the modelled contract, used by
the witnesses. -/
def xorAEAD : AEAD :=
  { encrypt := xorEncrypt
    decrypt := xorDecrypt
    decrypt_encrypt := xorDecrypt_encrypt
    tamper_detect := xorDecrypt_flip }

/-- Claim C1. For every 32-byte DEK, every KEK and every nonce, unwrapping
the result of wrapping yields the original DEK, for every AEAD satisfying
the modelled AES-GCM contract: `wrapDEK` succeeds (the 32-byte validation
passes) and `unwrapDEK` on its output returns exactly `dek`. -/
theorem unwrapDEK_wrapDEK_roundtrip (A : AEAD) (kek dek nonce : List Nat)
    (h32 : dek.length = 32) :
    wrapDEK A kek dek nonce = Except.ok (A.encrypt kek nonce dek, nonce) ∧
    unwrapDEK A kek (A.encrypt kek nonce dek) nonce = Except.ok dek := by
  constructor
  · unfold wrapDEK
    rw [if_neg (by simp [h32])]
  · unfold unwrapDEK
    rw [A.decrypt_encrypt]

/-- Witness for C1 at the concrete AEAD instance and a concrete 32-byte
DEK. -/
theorem unwrapDEK_wrapDEK_roundtrip_witness :
    (List.range 32).length = 32 ∧
    (wrapDEK xorAEAD [1, 2] (List.range 32) [7] =
        Except.ok (xorAEAD.encrypt [1, 2] [7] (List.range 32), [7]) ∧
      unwrapDEK xorAEAD [1, 2] (xorAEAD.encrypt [1, 2] [7] (List.range 32)) [7] =
        Except.ok (List.range 32)) :=
  ⟨by decide,
    unwrapDEK_wrapDEK_roundtrip xorAEAD [1, 2] (List.range 32) [7] (by decide)⟩

/-- Claim C2. For every AEAD satisfying the modelled contract: flipping any
single bit of a wrapped DEK before `unwrapDEK`, or of a sealed ciphertext
before `open`, makes the call fail with AuthenticationError — and the
`Except.error` result carries no (even partial) plaintext by construction.
The first and third conjuncts identify the wrapped bytes/ciphertext with
the AEAD encryption output that is then flipped. -/
theorem bitflip_authentication_error (A : AEAD)
    (kek dek nonce dek2 plaintext nonce2 : List Nat) (i m j m' : Nat)
    (h32 : dek.length = 32)
    (hi : i < (A.encrypt kek nonce dek).length) (hm : m < 8)
    (hj : j < (A.encrypt dek2 nonce2 plaintext).length) (hm' : m' < 8) :
    wrapDEK A kek dek nonce = Except.ok (A.encrypt kek nonce dek, nonce) ∧
    unwrapDEK A kek (flipBit (A.encrypt kek nonce dek) i m) nonce =
      Except.error CryptoError.authenticationError ∧
    sealData A dek2 plaintext nonce2 = (A.encrypt dek2 nonce2 plaintext, nonce2) ∧
    openData A dek2 (flipBit (A.encrypt dek2 nonce2 plaintext) j m') nonce2 =
      Except.error CryptoError.authenticationError := by
  refine ⟨?_, ?_, rfl, ?_⟩
  · unfold wrapDEK
    rw [if_neg (by simp [h32])]
  · unfold unwrapDEK
    rw [A.tamper_detect kek nonce dek i m hi hm]
  · unfold openData
    rw [A.tamper_detect dek2 nonce2 plaintext j m' hj hm']

/-- Witness for C2 at the concrete AEAD instance: bit 0 of byte 3 of a
wrapped DEK, and bit 7 of byte 1 of a sealed ciphertext. -/
theorem bitflip_authentication_error_witness :
    ((List.range 32).length = 32 ∧
      3 < (xorAEAD.encrypt [1, 2] [7] (List.range 32)).length ∧
      1 < (xorAEAD.encrypt [9] [6] [7, 8]).length) ∧
    (wrapDEK xorAEAD [1, 2] (List.range 32) [7] =
        Except.ok (xorAEAD.encrypt [1, 2] [7] (List.range 32), [7]) ∧
      unwrapDEK xorAEAD [1, 2]
          (flipBit (xorAEAD.encrypt [1, 2] [7] (List.range 32)) 3 0) [7] =
        Except.error CryptoError.authenticationError ∧
      sealData xorAEAD [9] [7, 8] [6] = (xorAEAD.encrypt [9] [6] [7, 8], [6]) ∧
      openData xorAEAD [9] (flipBit (xorAEAD.encrypt [9] [6] [7, 8]) 1 7) [6] =
        Except.error CryptoError.authenticationError) :=
  ⟨⟨by decide, by decide, by decide⟩,
    bitflip_authentication_error xorAEAD [1, 2] (List.range 32) [7] [9] [7, 8] [6]
      3 0 1 7 (by decide) (by decide) (by decide) (by decide) (by decide)⟩

end Crypto

